import Mathlib

/-!
Verification of the offline-first synchronization core of the
Field-Service-Report application: the local store (`lib/offline-db.ts`,
class `OfflineDatabase`) and the synchronization engine
(`lib/sync-service.ts`, class `SyncService`), shallowly embedded as pure
state-passing functions over an explicit database state.

Modelling conventions:
* JS `Date` values are millisecond timestamps (`Int`); the local-time
  calendar arithmetic of `new Date(year, monthIndex, day, h, m, s)` is
  reproduced by a Gregorian civil-date conversion (local time ≡ UTC).
* JS numbers that carry fractional hour counts are rationals (`ℚ`);
  `Math.round` is floor of `x + 1/2`, which is its behaviour on reals.
* Dexie auto-increment primary keys are modelled by `nextEntryId` /
  `nextQueueId` counters in the state; a record's optional `id` field
  (`id?: number` in `lib/types.ts`) is an `Option Nat`.
* The remote HTTP gateway and the wall clock are explicit parameters:
  each remote call's outcome is read from an oracle, and each operation
  that calls `new Date()` takes the current time `now` as an argument.
* `async`/`await` control flow is sequential state passing; a thrown
  exception is an explicit error value on the paths where the source
  catches or rethrows one.
-/

namespace FieldServiceReport

/-- `action` discriminator of a sync-queue item (`lib/types.ts`, `SyncQueueItem`). -/
inductive SyncAction
  | create
  | update
  | delete
  deriving DecidableEq

/-- `table` discriminator of a sync-queue item (`lib/types.ts`, `SyncQueueItem`). -/
inductive SyncTable
  | timeEntry
  | user
  deriving DecidableEq

/-- `OfflineTimeEntry` (`lib/types.ts`). Dates are ms timestamps, numbers ℚ. -/
structure OfflineTimeEntry where
  id : Option Nat
  userId : String
  date : Int
  timeStarted : Int
  timeEnded : Int
  hoursWorked : ℚ
  studies : List String
  participated : Bool
  comments : Option String
  synced : Bool
  createdAt : Int
  updatedAt : Int
  deriving DecidableEq

/-- `Partial<OfflineTimeEntry>`: each field is present (`some`) or absent (`none`). -/
structure TimeEntryUpdates where
  id : Option Nat := none
  userId : Option String := none
  date : Option Int := none
  timeStarted : Option Int := none
  timeEnded : Option Int := none
  hoursWorked : Option ℚ := none
  studies : Option (List String) := none
  participated : Option Bool := none
  comments : Option String := none
  synced : Option Bool := none
  createdAt : Option Int := none
  updatedAt : Option Int := none
  deriving DecidableEq

/-- The `data` payload of a sync-queue item
(`OfflineTimeEntry | Partial<OfflineTimeEntry> | { id: number }` in `lib/types.ts`). -/
inductive SyncPayload
  | fullEntry (e : OfflineTimeEntry)
  | changedFields (u : TimeEntryUpdates)
  | idOnly (id : Nat)
  deriving DecidableEq

/-- `SyncQueueItem` (`lib/types.ts`). -/
structure SyncQueueItem where
  id : Option Nat
  action : SyncAction
  table : SyncTable
  recordId : String
  data : SyncPayload
  timestamp : Int
  retryCount : Nat
  deriving DecidableEq

/-- `OfflineUser` (`lib/types.ts`). -/
structure OfflineUser where
  id : Option Nat
  email : String
  name : Option String
  lastSync : Int
  deriving DecidableEq

/-- The state of the `FieldServiceReportDB` Dexie database: the three tables
plus the auto-increment counters for the `++id` primary keys. -/
structure DBState where
  timeEntries : List OfflineTimeEntry
  users : List OfflineUser
  syncQueue : List SyncQueueItem
  nextEntryId : Nat := 1
  nextQueueId : Nat := 1
  deriving DecidableEq

/-- `Omit<OfflineTimeEntry, "id" | "synced" | "createdAt" | "updatedAt">`:
the argument shape of `OfflineDatabase.addTimeEntry`. -/
structure NewTimeEntry where
  userId : String
  date : Int
  timeStarted : Int
  timeEnded : Int
  hoursWorked : ℚ
  studies : List String
  participated : Bool
  comments : Option String := none
  deriving DecidableEq

/-! ### JS date arithmetic

`new Date(year, monthIndex, day, h, mi, s)` in local time, with JS's
normalisation of out-of-range month indices and `day = 0` meaning the last
day of the previous month.  `daysFromCivil` is the standard Gregorian
civil-date → days-since-epoch conversion. -/

/-- Days from 1970-01-01 to the Gregorian civil date `y-m-d` (`m ∈ [1,12]`). -/
def daysFromCivil (y m d : Int) : Int :=
  let y2 := if m ≤ 2 then y - 1 else y
  let m2 := if m ≤ 2 then m + 9 else m - 3
  let era := Int.fdiv y2 400
  let yoe := y2 - era * 400
  let doy := Int.fdiv (153 * m2 + 2) 5 + d - 1
  let doe := yoe * 365 + Int.fdiv yoe 4 - Int.fdiv yoe 100 + doy
  era * 146097 + doe - 719468

/-- Millisecond timestamp of `new Date(year, monthIndex, day, h, mi, s)`
(local time ≡ UTC in this model). -/
def jsDateMs (year monthIndex day h mi s : Int) : Int :=
  let tm := year * 12 + monthIndex
  let y := Int.fdiv tm 12
  let m := tm - 12 * y
  (daysFromCivil y (m + 1) 1 + (day - 1)) * 86400000 + ((h * 60 + mi) * 60 + s) * 1000

/-! ### Local Store operations (`lib/offline-db.ts`, class `OfflineDatabase`) -/

/-- `OfflineDatabase.addToSyncQueue`: append one queue entry with
`timestamp = now` and `retryCount = 0`. -/
def addToSyncQueue (db : DBState) (now : Int) (action : SyncAction)
    (table : SyncTable) (recordId : String) (data : SyncPayload) : DBState :=
  { db with
    syncQueue := db.syncQueue ++
      [{ id := some db.nextQueueId, action := action, table := table,
         recordId := recordId, data := data, timestamp := now, retryCount := 0 }],
    nextQueueId := db.nextQueueId + 1 }

/-- `OfflineDatabase.addTimeEntry`: persist the new entry with
`synced = false` and creation/modification time `now`, then enqueue a
`create` queue entry carrying the written record; returns the new id. -/
def addTimeEntry (db : DBState) (now : Int) (entry : NewTimeEntry) :
    Nat × DBState :=
  let offlineEntry : OfflineTimeEntry :=
    { id := none, userId := entry.userId, date := entry.date,
      timeStarted := entry.timeStarted, timeEnded := entry.timeEnded,
      hoursWorked := entry.hoursWorked, studies := entry.studies,
      participated := entry.participated, comments := entry.comments,
      synced := false, createdAt := now, updatedAt := now }
  let id := db.nextEntryId
  let db1 := { db with
    timeEntries := db.timeEntries ++ [{ offlineEntry with id := some id }],
    nextEntryId := id + 1 }
  (id, addToSyncQueue db1 now .create .timeEntry (toString id) (.fullEntry offlineEntry))

/-- Dexie `Table.update(id, changes)` field merge: a present field of the
`Partial` overrides the record's field. -/
def applyUpdates (e : OfflineTimeEntry) (u : TimeEntryUpdates) : OfflineTimeEntry :=
  { id := match u.id with | some n => some n | none => e.id,
    userId := u.userId.getD e.userId,
    date := u.date.getD e.date,
    timeStarted := u.timeStarted.getD e.timeStarted,
    timeEnded := u.timeEnded.getD e.timeEnded,
    hoursWorked := u.hoursWorked.getD e.hoursWorked,
    studies := u.studies.getD e.studies,
    participated := u.participated.getD e.participated,
    comments := match u.comments with | some c => some c | none => e.comments,
    synced := u.synced.getD e.synced,
    createdAt := u.createdAt.getD e.createdAt,
    updatedAt := u.updatedAt.getD e.updatedAt }

/-- `OfflineDatabase.updateTimeEntry`: build
`updatedEntry = {...updates, synced: false, updatedAt: now}`, merge it into
the record with primary key `id` (a no-op when no such record exists), then
enqueue an `update` queue entry carrying `updatedEntry`. -/
def updateTimeEntry (db : DBState) (now : Int) (id : Nat)
    (updates : TimeEntryUpdates) : DBState :=
  let updatedEntry := { updates with synced := some false, updatedAt := some now }
  let db1 := { db with
    timeEntries := db.timeEntries.map fun e =>
      if e.id = some id then applyUpdates e updatedEntry else e }
  addToSyncQueue db1 now .update .timeEntry (toString id) (.changedFields updatedEntry)

/-- `OfflineDatabase.deleteTimeEntry`: remove the record with primary key
`id`, then enqueue a `delete` queue entry carrying `{ id }`. -/
def deleteTimeEntry (db : DBState) (now : Int) (id : Nat) : DBState :=
  let db1 := { db with
    timeEntries := db.timeEntries.filter fun e => ¬ e.id = some id }
  addToSyncQueue db1 now .delete .timeEntry (toString id) (.idOnly id)

/-- `OfflineDatabase.getTimeEntriesByMonth`: entries of the user whose `date`
lies in `[new Date(y, m-1, 1), new Date(y, m, 0, 23:59:59)]`. -/
def getTimeEntriesByMonth (db : DBState) (userId : String) (year month : Int) :
    List OfflineTimeEntry :=
  let startDate := jsDateMs year (month - 1) 1 0 0 0
  let endDate := jsDateMs year month 0 23 59 59
  db.timeEntries.filter fun e =>
    e.userId = userId ∧ startDate ≤ e.date ∧ e.date ≤ endDate

/-- `OfflineDatabase.getTimeEntriesByYear`: entries of the user whose `date`
lies in `[new Date(y, 0, 1), new Date(y, 11, 31, 23:59:59)]`. -/
def getTimeEntriesByYear (db : DBState) (userId : String) (year : Int) :
    List OfflineTimeEntry :=
  let startDate := jsDateMs year 0 1 0 0 0
  let endDate := jsDateMs year 11 31 23 59 59
  db.timeEntries.filter fun e =>
    e.userId = userId ∧ startDate ≤ e.date ∧ e.date ≤ endDate

/-- JS `Math.round` on a rational: floor of `x + 1/2`. -/
def jsRound (x : ℚ) : Int := Int.floor (x + 1/2)

/-- `Math.round(x * 10) / 10`: rounding to one decimal as the source does. -/
def roundTo1 (x : ℚ) : ℚ := (jsRound (x * 10) : ℚ) / 10

/-- ASCII model of `String.prototype.toLowerCase`. -/
def lowerChar (c : Char) : Char :=
  if 'A' ≤ c ∧ c ≤ 'Z' then Char.ofNat (c.toNat + 32) else c

/-- ASCII model of `s.toLowerCase()`. -/
def lowerString (s : String) : String := String.mk (s.data.map lowerChar)

/-- `new Set(l).size`: the number of distinct elements of `l`. -/
def jsSetSize (l : List String) : Nat := l.dedup.length

/-- Result shape of `calculateMonthlyStats` (`MonthlyReport` in `lib/types.ts`). -/
structure MonthlyStats where
  totalHours : ℚ
  studiesCount : Nat
  participated : Bool
  entries : List OfflineTimeEntry
  deriving DecidableEq

/-- Result shape of `calculateYearlyStats` (`YearlyStats` in `lib/types.ts`). -/
structure YearlyStats where
  totalHours : ℚ
  studiesCount : Nat
  entriesCount : Nat
  deriving DecidableEq

/-- `OfflineDatabase.calculateMonthlyStats`. -/
def calculateMonthlyStats (db : DBState) (userId : String) (year month : Int) :
    MonthlyStats :=
  let entries := getTimeEntriesByMonth db userId year month
  let totalHours := entries.foldl (fun sum e => sum + e.hoursWorked) 0
  let uniqueStudies := entries.flatMap fun e => e.studies.map lowerString
  let participated := entries.any fun e => e.participated
  { totalHours := roundTo1 totalHours,
    studiesCount := jsSetSize uniqueStudies,
    participated := participated,
    entries := entries }

/-- `OfflineDatabase.calculateYearlyStats`. -/
def calculateYearlyStats (db : DBState) (userId : String) (year : Int) :
    YearlyStats :=
  let entries := getTimeEntriesByYear db userId year
  let totalHours := entries.foldl (fun sum e => sum + e.hoursWorked) 0
  let uniqueStudies := entries.flatMap fun e => e.studies.map lowerString
  { totalHours := roundTo1 totalHours,
    studiesCount := jsSetSize uniqueStudies,
    entriesCount := entries.length }

/-- `OfflineDatabase.getPendingSyncItems`: the queue ordered by the
`timestamp` index (ties resolved by primary key, i.e. insertion order:
`insertionSort` is stable). -/
def getPendingSyncItems (db : DBState) : List SyncQueueItem :=
  List.insertionSort (fun a b => a.timestamp ≤ b.timestamp) db.syncQueue

/-- `OfflineDatabase.markSyncItemCompleted`: delete the queue entry with
primary key `id`. -/
def markSyncItemCompleted (db : DBState) (id : Nat) : DBState :=
  { db with syncQueue := db.syncQueue.filter fun q => ¬ q.id = some id }

/-- `OfflineDatabase.incrementSyncRetry`: read the queue entry with primary
key `id` and, when present, store `retryCount + 1` back. -/
def incrementSyncRetry (db : DBState) (id : Nat) : DBState :=
  match db.syncQueue.find? (fun q => q.id = some id) with
  | some item =>
    { db with syncQueue := db.syncQueue.map fun q =>
        if q.id = some id then { q with retryCount := item.retryCount + 1 } else q }
  | none => db

/-- `OfflineDatabase.updateLastSyncTime`: look the user up by email and, when
present, stamp `lastSync = now`. -/
def updateLastSyncTime (db : DBState) (userId : String) (now : Int) : DBState :=
  match db.users.find? (fun v => v.email = userId) with
  | some user =>
    { db with users := db.users.map fun v =>
        if v.id = user.id then { v with lastSync := now } else v }
  | none => db

/-! ### Synchronization engine (`lib/sync-service.ts`, class `SyncService`)

A drain pass is a pure function of the oracle (remote-call outcomes), the
`syncInProgress` flag and the database state.  Besides the final state it
returns a trace of observable events: the flag transitions, each invocation
of `syncItem` (the remote-gateway replay of a queue entry), and each
backoff suspension with its duration in milliseconds. -/

/-- `SyncService.maxRetries`. -/
def maxRetries : Nat := 3

/-- `SyncService.retryDelay` (milliseconds). -/
def retryDelay : Int := 1000

/-- Outcomes of the effectful calls made during a drain pass:
`syncResult item = true` iff `syncItem item` succeeds (a `false` covers a
network error, a non-2xx response, a payload-shape failure or an unknown
table/action — all of them throw in the source); `readQueueFails = true`
models `getPendingSyncItems` (or another store operation inside the outer
`try`) throwing, which the outer `catch` turns into a `false` result. -/
structure RemoteOracle where
  syncResult : SyncQueueItem → Bool
  readQueueFails : Bool

/-- Observable events of a drain pass. -/
inductive SyncEvent
  | setFlag (b : Bool)
  | attempt (item : SyncQueueItem)
  | delayMs (ms : Int)
  deriving DecidableEq

/-- `item.id!` dereference used by the drain loop: the store operation is
keyed by the entry's primary key, which every persisted entry has. -/
def markSyncItemCompletedOpt (db : DBState) (oid : Option Nat) : DBState :=
  match oid with
  | some i => markSyncItemCompleted db i
  | none => db

/-- `item.id!` dereference for `incrementSyncRetry`. -/
def incrementSyncRetryOpt (db : DBState) (oid : Option Nat) : DBState :=
  match oid with
  | some i => incrementSyncRetry db i
  | none => db

/-- One iteration of the `for (const item of pendingItems)` loop in
`SyncService.syncPendingData`: drop the entry without a remote call when
`retryCount >= maxRetries`; otherwise call `syncItem` and either complete
the entry or increment its retry counter and suspend for
`retryDelay * (item.retryCount + 1)` ms. -/
def processItem (o : RemoteOracle) (db : DBState) (item : SyncQueueItem) :
    DBState × List SyncEvent :=
  if maxRetries ≤ item.retryCount then
    (markSyncItemCompletedOpt db item.id, [])
  else if o.syncResult item then
    (markSyncItemCompletedOpt db item.id, [SyncEvent.attempt item])
  else
    (incrementSyncRetryOpt db item.id,
      [SyncEvent.attempt item, SyncEvent.delayMs (retryDelay * (item.retryCount + 1))])

/-- The whole `for` loop over the snapshot `pendingItems`. -/
def drainLoop (o : RemoteOracle) : List SyncQueueItem → DBState → DBState × List SyncEvent
  | [], db => (db, [])
  | item :: rest, db =>
    let step := processItem o db item
    let restOut := drainLoop o rest step.1
    (restOut.1, step.2 ++ restOut.2)

/-- Result of `SyncService.syncPendingData`: the returned boolean, the
`syncInProgress` flag after the call, the database state and the event trace. -/
structure SyncOutcome where
  result : Bool
  syncInProgress : Bool
  db : DBState
  trace : List SyncEvent
  deriving DecidableEq

/-- `SyncService.syncPendingData`: reject when a pass is already running;
otherwise set the flag, drain the queue snapshot, and reset the flag in the
`finally` block — also on the `catch` path, which returns `false`. -/
def syncPendingData (o : RemoteOracle) (syncInProgress : Bool) (db : DBState) :
    SyncOutcome :=
  if syncInProgress then
    { result := false, syncInProgress := syncInProgress, db := db, trace := [] }
  else if o.readQueueFails then
    { result := false, syncInProgress := false, db := db,
      trace := [SyncEvent.setFlag true, SyncEvent.setFlag false] }
  else
    let out := drainLoop o (getPendingSyncItems db) db
    { result := true, syncInProgress := false, db := out.1,
      trace := SyncEvent.setFlag true :: out.2 ++ [SyncEvent.setFlag false] }

/-- `SyncService.forcSync` (the manual trigger behind `useSyncService`'s
`triggerSync`): it just delegates to `syncPendingData`. -/
def forcSync (o : RemoteOracle) (syncInProgress : Bool) (db : DBState) :
    SyncOutcome :=
  syncPendingData o syncInProgress db

/-! ### Bulk download (`SyncService.downloadServerData`) -/

/-- `ServerStudy` (`lib/types.ts`). -/
structure ServerStudy where
  id : String
  participant : String
  deriving DecidableEq

/-- `ServerTimeEntry` (`lib/types.ts`); its ISO timestamp strings are
modelled already parsed to ms timestamps. -/
structure ServerTimeEntry where
  id : String
  date : Int
  timeStarted : Int
  timeEnded : Int
  hoursWorked : ℚ
  studies : List ServerStudy
  participated : Bool
  comments : Option String
  createdAt : Int
  updatedAt : Int
  deriving DecidableEq

/-- Outcome of one month's `fetch` in `downloadServerData`: the fetch
throws (network error), or resolves with a non-OK response (the month is
skipped), or resolves OK with the month's entries. -/
inductive FetchResult
  | fetchThrows
  | notOk
  | okEntries (entries : List ServerTimeEntry)
  deriving DecidableEq

/-- Errors surfaced by `downloadServerData`. -/
inductive SyncError
  | offline
  | fetchFailed (monthIndex : Nat)
  deriving DecidableEq

/-- Result of `downloadServerData`: the surfaced error (if any), the final
database state (kept also on error), and the indices of the months for
which a fetch was issued. -/
structure DownloadOutcome where
  result : Except SyncError Unit
  db : DBState
  fetched : List Nat

/-- The `offlineEntry` derived from a server entry in `downloadServerData`:
owner set to the downloading user, participants flattened, `synced = true`. -/
def serverToOffline (userId : String) (e : ServerTimeEntry) : OfflineTimeEntry :=
  { id := none, userId := userId, date := e.date, timeStarted := e.timeStarted,
    timeEnded := e.timeEnded, hoursWorked := e.hoursWorked,
    studies := e.studies.map fun s => s.participant,
    participated := e.participated, comments := e.comments,
    synced := true, createdAt := e.createdAt, updatedAt := e.updatedAt }

/-- The per-entry body of `downloadServerData`'s inner loop: insert the
derived record unless a local entry with the same owner, date and start
timestamp already exists. -/
def storeServerEntry (db : DBState) (userId : String) (e : ServerTimeEntry) :
    DBState :=
  let offlineEntry := serverToOffline userId e
  match db.timeEntries.find? (fun x =>
      x.userId = userId ∧ x.date = offlineEntry.date ∧
      x.timeStarted = offlineEntry.timeStarted) with
  | some _ => db
  | none =>
    { db with
      timeEntries := db.timeEntries ++ [{ offlineEntry with id := some db.nextEntryId }],
      nextEntryId := db.nextEntryId + 1 }

/-- The `for (let i = 0; i < 3; i++)` month loop of `downloadServerData`,
fetching month index `i` and the following `n - 1` ones: a throwing fetch
aborts the loop (the exception propagates), a non-OK response skips the
month, an OK response stores each returned entry. -/
def downloadMonths (o : Nat → FetchResult) (userId : String) :
    Nat → Nat → DBState → DownloadOutcome
  | _, 0, db => ⟨.ok (), db, []⟩
  | i, n + 1, db =>
    match o i with
    | .fetchThrows => ⟨.error (.fetchFailed i), db, [i]⟩
    | .notOk =>
      let rest := downloadMonths o userId (i + 1) n db
      ⟨rest.result, rest.db, i :: rest.fetched⟩
    | .okEntries entries =>
      let db1 := entries.foldl (fun d e => storeServerEntry d userId e) db
      let rest := downloadMonths o userId (i + 1) n db1
      ⟨rest.result, rest.db, i :: rest.fetched⟩

/-- `SyncService.downloadServerData`: fail immediately when offline;
otherwise process the current month and the two preceding ones, update the
cached user's last-sync timestamp on completion, and rethrow any error
(keeping the partial progress already written). -/
def downloadServerData (online : Bool) (db : DBState) (userId : String)
    (now : Int) (o : Nat → FetchResult) : DownloadOutcome :=
  if online then
    let out := downloadMonths o userId 0 3 db
    match out.result with
    | .ok _ => ⟨.ok (), updateLastSyncTime out.db userId now, out.fetched⟩
    | .error e => ⟨.error e, out.db, out.fetched⟩
  else ⟨.error .offline, db, []⟩

/-! ### Conflict resolution (`SyncService.resolveConflict`) -/

/-- The `Partial<OfflineTimeEntry>` produced by passing a full entry where a
partial is expected (`resolveConflict`'s "local" branch): every field of the
record is present. -/
def entryToUpdates (e : OfflineTimeEntry) : TimeEntryUpdates :=
  { id := e.id, userId := some e.userId, date := some e.date,
    timeStarted := some e.timeStarted, timeEnded := some e.timeEnded,
    hoursWorked := some e.hoursWorked, studies := some e.studies,
    participated := some e.participated, comments := e.comments,
    synced := some e.synced, createdAt := some e.createdAt,
    updatedAt := some e.updatedAt }

/-- `SyncService.resolveConflict`: "local" re-writes the entry through
`updateTimeEntry` (re-staging it for sync); anything else deletes the local
record outright — no server fetch is involved (the function consumes no
remote oracle). -/
def resolveConflict (db : DBState) (now : Int) (entryId : Nat)
    (resolution : String) : DBState :=
  if resolution = "local" then
    match db.timeEntries.find? (fun e => e.id = some entryId) with
    | some entry => updateTimeEntry db now entryId (entryToUpdates entry)
    | none => db
  else
    { db with timeEntries := db.timeEntries.filter fun e => ¬ e.id = some entryId }

/-! ### Mutation sequences (for the queue/mutation one-to-one invariant) -/

/-- One Local-Store mutation issued by the application. -/
inductive Mutation
  | addEntry (fields : NewTimeEntry)
  | updateEntry (id : Nat) (updates : TimeEntryUpdates)
  | deleteEntry (id : Nat)
  deriving DecidableEq

/-- Apply one mutation at time `now`. -/
def applyMutation (db : DBState) (now : Int) : Mutation → DBState
  | .addEntry f => (addTimeEntry db now f).2
  | .updateEntry i u => updateTimeEntry db now i u
  | .deleteEntry i => deleteTimeEntry db now i

/-- Apply a timed sequence of mutations (no drain in between). -/
def applyMutations (db : DBState) : List (Int × Mutation) → DBState
  | [] => db
  | (t, m) :: rest => applyMutations (applyMutation db t m) rest

/-- Number of `attempt` events in a trace that target the queue entry with
primary key `X`. -/
def countAttempts (X : Nat) (trace : List SyncEvent) : Nat :=
  trace.countP fun ev =>
    match ev with
    | SyncEvent.attempt e => decide (e.id = some X)
    | _ => false

/-! ### Helper lemmas -/

theorem addToSyncQueue_spec (db : DBState) (now : Int) (a : SyncAction)
    (t : SyncTable) (r : String) (d : SyncPayload) :
    (addToSyncQueue db now a t r d).syncQueue =
      db.syncQueue ++
        [{ id := some db.nextQueueId, action := a, table := t, recordId := r,
           data := d, timestamp := now, retryCount := 0 }] := rfl

theorem addToSyncQueue_timeEntries (db : DBState) (now : Int) (a : SyncAction)
    (t : SyncTable) (r : String) (d : SyncPayload) :
    (addToSyncQueue db now a t r d).timeEntries = db.timeEntries := rfl

theorem applyMutation_queue_length (db : DBState) (t : Int) (m : Mutation) :
    (applyMutation db t m).syncQueue.length = db.syncQueue.length + 1 := by
  cases m <;>
    simp [applyMutation, addTimeEntry, updateTimeEntry, deleteTimeEntry,
      addToSyncQueue]

theorem applyMutations_queue_length (ms : List (Int × Mutation)) (db : DBState) :
    (applyMutations db ms).syncQueue.length = db.syncQueue.length + ms.length := by
  induction ms generalizing db with
  | nil => simp [applyMutations]
  | cons hd tl ih =>
    obtain ⟨t, m⟩ := hd
    simp only [applyMutations, ih, applyMutation_queue_length, List.length_cons]
    omega

/-! ### C1 -/

/-- C1: every `addTimeEntry`, `updateTimeEntry` and `deleteTimeEntry` call
appends exactly one sync-queue entry with `retryCount = 0` whose action
(`create`/`update`/`delete`), table (`timeEntry`) and record id (the string
form of the record's local identifier) describe the mutation; consequently
a sequence of mutations (no drain in between) grows the queue by exactly
one entry per mutation. -/
theorem mutations_enqueue_exactly_one :
    (∀ (db : DBState) (now : Int) (f : NewTimeEntry),
      ∃ q, (addTimeEntry db now f).2.syncQueue = db.syncQueue ++ [q] ∧
        q.retryCount = 0 ∧ q.action = SyncAction.create ∧
        q.table = SyncTable.timeEntry ∧
        q.recordId = toString (addTimeEntry db now f).1) ∧
    (∀ (db : DBState) (now : Int) (i : Nat) (u : TimeEntryUpdates),
      ∃ q, (updateTimeEntry db now i u).syncQueue = db.syncQueue ++ [q] ∧
        q.retryCount = 0 ∧ q.action = SyncAction.update ∧
        q.table = SyncTable.timeEntry ∧ q.recordId = toString i) ∧
    (∀ (db : DBState) (now : Int) (i : Nat),
      ∃ q, (deleteTimeEntry db now i).syncQueue = db.syncQueue ++ [q] ∧
        q.retryCount = 0 ∧ q.action = SyncAction.delete ∧
        q.table = SyncTable.timeEntry ∧ q.recordId = toString i) ∧
    (∀ (db : DBState) (ms : List (Int × Mutation)),
      (applyMutations db ms).syncQueue.length = db.syncQueue.length + ms.length) := by
  exact ⟨fun db now f => ⟨_, rfl, rfl, rfl, rfl, rfl⟩,
    fun db now i u => ⟨_, rfl, rfl, rfl, rfl, rfl⟩,
    fun db now i => ⟨_, rfl, rfl, rfl, rfl, rfl⟩,
    fun db ms => applyMutations_queue_length ms db⟩

/-! ### C3 -/

/-- C3: a `syncPendingData` call (and the manual trigger `forcSync`, which
delegates to it) made while a drain is already in progress returns `false`
immediately: no queue entry is processed, the state is untouched and the
trace is empty, so at most one drain runs at a time. -/
theorem syncPendingData_busy_rejected (o : RemoteOracle) (db : DBState) :
    syncPendingData o true db =
      { result := false, syncInProgress := true, db := db, trace := [] } ∧
    forcSync o true db =
      { result := false, syncInProgress := true, db := db, trace := [] } :=
  ⟨rfl, rfl⟩

/-! ### C10 -/

/-- C10: every `syncPendingData` invocation that passes the busy check
starts by setting `syncInProgress` and ends by resetting it (the first and
last trace events), leaves the flag `false` after returning on every path,
and returns `false` exactly when the store read inside the `try` throws
(the `catch` path) — so a completed pass never leaves a later trigger
permanently rejected as busy. -/
theorem syncPendingData_resets_flag (o : RemoteOracle) (db : DBState) :
    (syncPendingData o false db).syncInProgress = false ∧
    (syncPendingData o false db).result = !o.readQueueFails ∧
    (syncPendingData o false db).trace.head? = some (SyncEvent.setFlag true) ∧
    (syncPendingData o false db).trace.getLast? = some (SyncEvent.setFlag false) := by
  obtain ⟨f, rf⟩ := o
  cases rf with
  | true => exact ⟨rfl, rfl, rfl, rfl⟩
  | false =>
    refine ⟨rfl, rfl, rfl, ?_⟩
    show (SyncEvent.setFlag true ::
        ((drainLoop ⟨f, false⟩ (getPendingSyncItems db) db).2 ++
          [SyncEvent.setFlag false])).getLast? = some (SyncEvent.setFlag false)
    rw [← List.cons_append]
    exact List.getLast?_concat _

/-! ### C7 -/

/-- C7: `updateTimeEntry` on an identifier with no existing record is a
silent no-op on the `timeEntries` table (and throws nothing — the model is
total on this path), yet still appends one `update` sync-queue entry whose
record id is the string form of the identifier. -/
theorem updateTimeEntry_nonexistent_noop (db : DBState) (now : Int) (i : Nat)
    (u : TimeEntryUpdates) (h : ∀ e ∈ db.timeEntries, e.id ≠ some i) :
    (updateTimeEntry db now i u).timeEntries = db.timeEntries ∧
    ∃ q, (updateTimeEntry db now i u).syncQueue = db.syncQueue ++ [q] ∧
      q.action = SyncAction.update ∧ q.table = SyncTable.timeEntry ∧
      q.recordId = toString i ∧ q.retryCount = 0 := by
  constructor
  · show (db.timeEntries.map fun e =>
        if e.id = some i then applyUpdates e _ else e) = db.timeEntries
    calc (db.timeEntries.map fun e =>
          if e.id = some i then applyUpdates e _ else e)
        = db.timeEntries.map id := by
          apply List.map_congr_left
          intro e he
          simp [h e he]
      _ = db.timeEntries := List.map_id db.timeEntries
  · exact ⟨_, rfl, rfl, rfl, rfl, rfl⟩

/-- Witness for C7 at a concrete input: an empty store, identifier 5. -/
theorem updateTimeEntry_nonexistent_noop_witness :
    (updateTimeEntry { timeEntries := [], users := [], syncQueue := [] } 9 5
        {}).timeEntries = [] ∧
    ∃ q, (updateTimeEntry { timeEntries := [], users := [], syncQueue := [] } 9 5
        {}).syncQueue = [] ++ [q] ∧
      q.action = SyncAction.update ∧ q.table = SyncTable.timeEntry ∧
      q.recordId = toString 5 ∧ q.retryCount = 0 :=
  updateTimeEntry_nonexistent_noop
    { timeEntries := [], users := [], syncQueue := [] } 9 5 {}
    (by intro e he; simp at he)

/-! ### C8 -/

theorem foldl_add_hours (l : List OfflineTimeEntry) (a : ℚ) :
    l.foldl (fun sum e => sum + e.hoursWorked) a =
      a + (l.map fun e => e.hoursWorked).sum := by
  induction l generalizing a with
  | nil => simp
  | cons hd tl ih => simp [ih, add_assoc]

theorem jsSetSize_eq_card_toFinset (l : List String) :
    jsSetSize l = l.toFinset.card :=
  (List.card_toFinset l).symm

/-- The concrete database of the spec's aggregation scenario: two May-2024
entries of the same user with participant lists `["Alice", "alice"]` and
`["Bob"]`. -/
def exampleMayDb : DBState :=
  { timeEntries :=
      [{ id := some 1, userId := "u1", date := jsDateMs 2024 4 10 0 0 0,
         timeStarted := jsDateMs 2024 4 10 9 0 0,
         timeEnded := jsDateMs 2024 4 10 12 30 0, hoursWorked := 7/2,
         studies := ["Alice", "alice"], participated := true,
         comments := none, synced := false, createdAt := 0, updatedAt := 0 },
       { id := some 2, userId := "u1", date := jsDateMs 2024 4 12 0 0 0,
         timeStarted := jsDateMs 2024 4 12 10 0 0,
         timeEnded := jsDateMs 2024 4 12 12 0 0, hoursWorked := 2,
         studies := ["Bob"], participated := false,
         comments := none, synced := false, createdAt := 0, updatedAt := 0 }],
    users := [], syncQueue := [], nextEntryId := 3, nextQueueId := 1 }

/-- C8: `calculateMonthlyStats` returns the month's duration sum rounded to
one decimal, the number of distinct lower-cased participant names across
all matching entries, and whether some entry has `participated = true`;
`calculateYearlyStats` returns the analogous rounded sum and distinct
count over the year.  On the concrete scenario with participant lists
`["Alice", "alice"]` and `["Bob"]` in the same month, `studiesCount = 2`. -/
theorem stats_aggregation :
    (∀ (db : DBState) (u : String) (year month : Int),
      (calculateMonthlyStats db u year month).totalHours =
        roundTo1 (((getTimeEntriesByMonth db u year month).map
          fun e => e.hoursWorked).sum) ∧
      (calculateMonthlyStats db u year month).studiesCount =
        ((getTimeEntriesByMonth db u year month).flatMap
          fun e => e.studies.map lowerString).toFinset.card ∧
      ((calculateMonthlyStats db u year month).participated = true ↔
        ∃ e ∈ getTimeEntriesByMonth db u year month, e.participated = true)) ∧
    (∀ (db : DBState) (u : String) (year : Int),
      (calculateYearlyStats db u year).totalHours =
        roundTo1 (((getTimeEntriesByYear db u year).map
          fun e => e.hoursWorked).sum) ∧
      (calculateYearlyStats db u year).studiesCount =
        ((getTimeEntriesByYear db u year).flatMap
          fun e => e.studies.map lowerString).toFinset.card) ∧
    (calculateMonthlyStats exampleMayDb "u1" 2024 5).studiesCount = 2 := by
  refine ⟨fun db u year month => ⟨?_, ?_, ?_⟩, fun db u year => ⟨?_, ?_⟩, ?_⟩
  · show roundTo1 ((getTimeEntriesByMonth db u year month).foldl
        (fun sum e => sum + e.hoursWorked) 0) = _
    rw [foldl_add_hours, zero_add]
  · exact jsSetSize_eq_card_toFinset _
  · show (getTimeEntriesByMonth db u year month).any (fun e => e.participated)
        = true ↔ _
    simp [List.any_eq_true]
  · show roundTo1 ((getTimeEntriesByYear db u year).foldl
        (fun sum e => sum + e.hoursWorked) 0) = _
    rw [foldl_add_hours, zero_add]
  · exact jsSetSize_eq_card_toFinset _
  · decide

/-! ### C9 -/

theorem updateTimeEntry_timeEntries (db : DBState) (now : Int) (i : Nat)
    (u : TimeEntryUpdates) :
    (updateTimeEntry db now i u).timeEntries =
      db.timeEntries.map fun e =>
        if e.id = some i then
          applyUpdates e { u with synced := some false, updatedAt := some now }
        else e := rfl

theorem applyUpdates_entryToUpdates (e : OfflineTimeEntry) (now : Int) :
    applyUpdates e
        { entryToUpdates e with synced := some false, updatedAt := some now } =
      { e with synced := false, updatedAt := now } := by
  obtain ⟨i, us, d, t1, t2, hw, st, p, c, sy, ca, ua⟩ := e
  cases i <;> cases c <;> rfl

/-- C9: on an existing conflicted entry (unsynced, modified after creation),
`resolveConflict _ "local"` re-stages the local version for sync — the
record keeps all its data (only `updatedAt` is re-stamped; `synced` stays
`false`) and one `update` queue entry is appended — while
`resolveConflict _ "server"` removes the local record outright, appending
no queue entry and consulting no server data (the function takes no remote
oracle at all). -/
theorem resolveConflict_policies (db : DBState) (now : Int) (entryId : Nat)
    (entry : OfflineTimeEntry)
    (hfind : db.timeEntries.find? (fun e => e.id = some entryId) = some entry)
    (huniq : ∀ e ∈ db.timeEntries, e.id = some entryId → e = entry)
    (hunsynced : entry.synced = false)
    (hconflict : entry.createdAt < entry.updatedAt) :
    ((resolveConflict db now entryId "local").timeEntries =
        db.timeEntries.map (fun e =>
          if e.id = some entryId then { entry with updatedAt := now } else e) ∧
      ∃ q, (resolveConflict db now entryId "local").syncQueue =
          db.syncQueue ++ [q] ∧
        q.action = SyncAction.update ∧ q.table = SyncTable.timeEntry ∧
        q.recordId = toString entryId ∧ q.retryCount = 0) ∧
    ((resolveConflict db now entryId "server").timeEntries =
        db.timeEntries.filter (fun e => ¬ e.id = some entryId) ∧
      (resolveConflict db now entryId "server").syncQueue = db.syncQueue ∧
      (resolveConflict db now entryId "server").users = db.users) := by
  have hlocal : resolveConflict db now entryId "local" =
      updateTimeEntry db now entryId (entryToUpdates entry) := by
    unfold resolveConflict
    rw [if_pos rfl, hfind]
  refine ⟨⟨?_, ?_⟩, rfl, rfl, rfl⟩
  · rw [hlocal, updateTimeEntry_timeEntries]
    apply List.map_congr_left
    intro e he
    by_cases hid : e.id = some entryId
    · rw [if_pos hid, if_pos hid, huniq e he hid, applyUpdates_entryToUpdates]
      obtain ⟨i, us, d, t1, t2, hw, st, p, c, sy, ca, ua⟩ := entry
      have hsy : sy = false := hunsynced
      subst hsy
      rfl
    · rw [if_neg hid, if_neg hid]
  · rw [hlocal]
    exact ⟨_, rfl, rfl, rfl, rfl, rfl⟩

/-- The concrete conflicted entry used to witness C9. -/
def conflictedEntry : OfflineTimeEntry :=
  { id := some 1, userId := "u", date := 0, timeStarted := 0,
    timeEnded := 3600000, hoursWorked := 1, studies := ["Ann"],
    participated := false, comments := none, synced := false,
    createdAt := 0, updatedAt := 5 }

/-- The concrete one-entry store used to witness C9. -/
def conflictedDb : DBState :=
  { timeEntries := [conflictedEntry], users := [], syncQueue := [],
    nextEntryId := 2, nextQueueId := 1 }

/-- Witness for C9 at a concrete conflicted entry. -/
theorem resolveConflict_policies_witness :
    ((resolveConflict conflictedDb 10 1 "local").timeEntries =
        conflictedDb.timeEntries.map (fun e =>
          if e.id = some 1 then { conflictedEntry with updatedAt := 10 } else e) ∧
      ∃ q, (resolveConflict conflictedDb 10 1 "local").syncQueue =
          conflictedDb.syncQueue ++ [q] ∧
        q.action = SyncAction.update ∧ q.table = SyncTable.timeEntry ∧
        q.recordId = toString 1 ∧ q.retryCount = 0) ∧
    ((resolveConflict conflictedDb 10 1 "server").timeEntries =
        conflictedDb.timeEntries.filter (fun e => ¬ e.id = some 1) ∧
      (resolveConflict conflictedDb 10 1 "server").syncQueue =
        conflictedDb.syncQueue ∧
      (resolveConflict conflictedDb 10 1 "server").users = conflictedDb.users) :=
  resolveConflict_policies conflictedDb 10 1 conflictedEntry (by decide)
    (by decide) rfl (by decide)

/-! ### Download helper lemmas -/

theorem storeServerEntry_syncQueue (db : DBState) (u : String)
    (e : ServerTimeEntry) : (storeServerEntry db u e).syncQueue = db.syncQueue := by
  simp only [storeServerEntry]
  split <;> rfl

theorem storeServerEntry_users (db : DBState) (u : String)
    (e : ServerTimeEntry) : (storeServerEntry db u e).users = db.users := by
  simp only [storeServerEntry]
  split <;> rfl

theorem storeServerEntry_extends (db : DBState) (u : String)
    (e : ServerTimeEntry) :
    ∃ suf, (storeServerEntry db u e).timeEntries = db.timeEntries ++ suf := by
  simp only [storeServerEntry]
  split
  · exact ⟨[], by simp⟩
  · exact ⟨_, rfl⟩

theorem foldl_store_syncQueue (u : String) :
    ∀ (entries : List ServerTimeEntry) (db : DBState),
      (entries.foldl (fun d e => storeServerEntry d u e) db).syncQueue =
        db.syncQueue := by
  intro entries
  induction entries with
  | nil => intro db; rfl
  | cons e es ih =>
    intro db
    rw [List.foldl_cons, ih, storeServerEntry_syncQueue]

theorem foldl_store_users (u : String) :
    ∀ (entries : List ServerTimeEntry) (db : DBState),
      (entries.foldl (fun d e => storeServerEntry d u e) db).users = db.users := by
  intro entries
  induction entries with
  | nil => intro db; rfl
  | cons e es ih =>
    intro db
    rw [List.foldl_cons, ih, storeServerEntry_users]

theorem foldl_store_extends (u : String) :
    ∀ (entries : List ServerTimeEntry) (db : DBState),
      ∃ suf, (entries.foldl (fun d e => storeServerEntry d u e) db).timeEntries =
        db.timeEntries ++ suf := by
  intro entries
  induction entries with
  | nil => intro db; exact ⟨[], by simp⟩
  | cons e es ih =>
    intro db
    obtain ⟨s1, h1⟩ := storeServerEntry_extends db u e
    obtain ⟨s2, h2⟩ := ih (storeServerEntry db u e)
    exact ⟨s1 ++ s2, by rw [List.foldl_cons, h2, h1, List.append_assoc]⟩

theorem downloadMonths_syncQueue (o : Nat → FetchResult) (u : String) :
    ∀ (n i : Nat) (db : DBState),
      (downloadMonths o u i n db).db.syncQueue = db.syncQueue := by
  intro n
  induction n with
  | zero => intro i db; rfl
  | succ m ih =>
    intro i db
    cases ho : o i with
    | fetchThrows => simp [downloadMonths, ho]
    | notOk => simp [downloadMonths, ho, ih]
    | okEntries entries => simp [downloadMonths, ho, ih, foldl_store_syncQueue]

theorem downloadMonths_users (o : Nat → FetchResult) (u : String) :
    ∀ (n i : Nat) (db : DBState),
      (downloadMonths o u i n db).db.users = db.users := by
  intro n
  induction n with
  | zero => intro i db; rfl
  | succ m ih =>
    intro i db
    cases ho : o i with
    | fetchThrows => simp [downloadMonths, ho]
    | notOk => simp [downloadMonths, ho, ih]
    | okEntries entries => simp [downloadMonths, ho, ih, foldl_store_users]

theorem downloadMonths_extends (o : Nat → FetchResult) (u : String) :
    ∀ (n i : Nat) (db : DBState),
      ∃ suf, (downloadMonths o u i n db).db.timeEntries = db.timeEntries ++ suf := by
  intro n
  induction n with
  | zero => intro i db; exact ⟨[], by rw [List.append_nil]; rfl⟩
  | succ m ih =>
    intro i db
    cases ho : o i with
    | fetchThrows => exact ⟨[], by simp [downloadMonths, ho]⟩
    | notOk =>
      obtain ⟨s, hs⟩ := ih (i + 1) db
      exact ⟨s, by simp [downloadMonths, ho, hs]⟩
    | okEntries entries =>
      obtain ⟨s1, h1⟩ := foldl_store_extends u entries db
      obtain ⟨s2, h2⟩ :=
        ih (i + 1) (entries.foldl (fun d e => storeServerEntry d u e) db)
      exact ⟨s1 ++ s2, by simp [downloadMonths, ho, h2, h1, List.append_assoc]⟩

theorem updateLastSyncTime_syncQueue (db : DBState) (u : String) (now : Int) :
    (updateLastSyncTime db u now).syncQueue = db.syncQueue := by
  simp only [updateLastSyncTime]
  split <;> rfl

theorem updateLastSyncTime_lastSync (db : DBState) (u : String) (now : Int)
    (usr : OfflineUser)
    (h : db.users.find? (fun v => v.email = u) = some usr) :
    ∃ usr2, (updateLastSyncTime db u now).users.find?
        (fun v => v.id = usr.id) = some usr2 ∧ usr2.lastSync = now := by
  have hmem : usr ∈ db.users := List.mem_of_find?_eq_some h
  simp only [updateLastSyncTime, h]
  have : ∀ l : List OfflineUser, (∃ v ∈ l, v.id = usr.id) →
      ∃ usr2, (l.map fun v =>
          if v.id = usr.id then { v with lastSync := now } else v).find?
        (fun v => v.id = usr.id) = some usr2 ∧ usr2.lastSync = now := by
    intro l hl
    induction l with
    | nil => simp at hl
    | cons a l ih =>
      by_cases ha : a.id = usr.id
      · refine ⟨{ a with lastSync := now }, ?_, rfl⟩
        rw [List.map_cons, if_pos ha, List.find?_cons_of_pos]
        simpa using ha
      · obtain ⟨v, hv, hvid⟩ := hl
        rcases List.mem_cons.mp hv with rfl | hv2
        · exact absurd hvid ha
        · obtain ⟨usr2, h2, h3⟩ := ih ⟨v, hv2, hvid⟩
          refine ⟨usr2, ?_, h3⟩
          rw [List.map_cons, if_neg ha, List.find?_cons_of_neg]
          · exact h2
          · simpa using ha
  exact this db.users ⟨usr, hmem, rfl⟩

/-! ### C5 -/

/-- C5: for every server entry processed by the download path, when a local
entry with the same owner, date timestamp and start timestamp already
exists, nothing is inserted; otherwise exactly one new record derived from
the server entry is appended, carrying `synced = true`; and neither case —
nor any other part of `downloadServerData` — appends a sync-queue entry. -/
theorem download_no_duplicate_insert (db : DBState) (u : String)
    (e : ServerTimeEntry) :
    ((∃ x ∈ db.timeEntries, x.userId = u ∧ x.date = e.date ∧
        x.timeStarted = e.timeStarted) →
      (storeServerEntry db u e).timeEntries = db.timeEntries) ∧
    (¬ (∃ x ∈ db.timeEntries, x.userId = u ∧ x.date = e.date ∧
        x.timeStarted = e.timeStarted) →
      (storeServerEntry db u e).timeEntries =
        db.timeEntries ++ [{ serverToOffline u e with id := some db.nextEntryId }]) ∧
    (serverToOffline u e).synced = true ∧
    (storeServerEntry db u e).syncQueue = db.syncQueue ∧
    (∀ (online : Bool) (now : Int) (o : Nat → FetchResult),
      (downloadServerData online db u now o).db.syncQueue = db.syncQueue) := by
  refine ⟨?_, ?_, rfl, storeServerEntry_syncQueue db u e, ?_⟩
  · intro hex
    simp only [storeServerEntry]
    split
    · rfl
    · next hnone =>
      exfalso
      rw [List.find?_eq_none] at hnone
      obtain ⟨x, hx, h1, h2, h3⟩ := hex
      exact absurd (by simp [serverToOffline, h1, h2, h3]) (hnone x hx)
  · intro hnex
    simp only [storeServerEntry]
    split
    · next x hsome =>
      exfalso
      have hx := List.mem_of_find?_eq_some hsome
      have hp := List.find?_some hsome
      simp [serverToOffline] at hp
      exact hnex ⟨x, hx, hp.1, hp.2.1, hp.2.2⟩
    · rfl
  · intro online now o
    cases online with
    | false => rfl
    | true =>
      show (match (downloadMonths o u 0 3 db).result with
        | .ok _ => (⟨.ok (), updateLastSyncTime (downloadMonths o u 0 3 db).db u now,
            (downloadMonths o u 0 3 db).fetched⟩ : DownloadOutcome)
        | .error err => ⟨.error err, (downloadMonths o u 0 3 db).db,
            (downloadMonths o u 0 3 db).fetched⟩).db.syncQueue = db.syncQueue
      cases (downloadMonths o u 0 3 db).result with
      | ok _ =>
        simp only
        rw [updateLastSyncTime_syncQueue, downloadMonths_syncQueue]
      | error err =>
        simp only
        rw [downloadMonths_syncQueue]

/-- Witness for C5 at concrete inputs: a store already holding the server
entry's user/date/start triple (no insert), and an empty store (insert). -/
theorem download_no_duplicate_insert_witness :
    ((∃ x ∈ conflictedDb.timeEntries, x.userId = "u" ∧ x.date = (0 : Int) ∧
        x.timeStarted = (0 : Int)) →
      (storeServerEntry conflictedDb "u"
        { id := "s1", date := 0, timeStarted := 0, timeEnded := 3600000,
          hoursWorked := 1, studies := [], participated := false,
          comments := none, createdAt := 0, updatedAt := 0 }).timeEntries =
        conflictedDb.timeEntries) ∧
    (∃ x ∈ conflictedDb.timeEntries, x.userId = "u" ∧ x.date = (0 : Int) ∧
        x.timeStarted = (0 : Int)) := by
  constructor
  · exact fun h => (download_no_duplicate_insert conflictedDb "u" _).1 h
  · exact ⟨conflictedEntry, by decide, by decide, by decide, by decide⟩

/-! ### C6 -/

theorem range_map_shift (i m : Nat) :
    (List.range (m + 1)).map (fun k => i + k) =
      i :: (List.range m).map (fun k => i + 1 + k) := by
  rw [List.range_succ_eq_map, List.map_cons, List.map_map]
  refine congrArg₂ _ (by omega) (List.map_congr_left fun a _ => ?_)
  simp only [Function.comp_apply]
  omega

theorem downloadMonths_ok_of_no_throw (o : Nat → FetchResult) (u : String) :
    ∀ (n i : Nat) (db : DBState), (∀ k, k < n → o (i + k) ≠ .fetchThrows) →
      (downloadMonths o u i n db).result = .ok () ∧
      (downloadMonths o u i n db).fetched = (List.range n).map (fun k => i + k) := by
  intro n
  induction n with
  | zero => intro i db _; exact ⟨rfl, rfl⟩
  | succ m ih =>
    intro i db h
    have h0 : o i ≠ .fetchThrows := by
      have := h 0 (Nat.succ_pos m)
      simpa using this
    have hrest : ∀ k, k < m → o (i + 1 + k) ≠ .fetchThrows := by
      intro k hk
      have := h (k + 1) (by omega)
      simpa [Nat.add_assoc, Nat.add_comm 1 k] using this
    cases ho : o i with
    | fetchThrows => exact absurd ho h0
    | notOk =>
      obtain ⟨h1, h2⟩ := ih (i + 1) db hrest
      constructor
      · simp [downloadMonths, ho, h1]
      · simp only [downloadMonths, ho]
        rw [range_map_shift, ← h2]
    | okEntries entries =>
      obtain ⟨h1, h2⟩ :=
        ih (i + 1) (entries.foldl (fun d e => storeServerEntry d u e) db) hrest
      constructor
      · simp [downloadMonths, ho, h1]
      · simp only [downloadMonths, ho]
        rw [range_map_shift, ← h2]

theorem downloadMonths_throw_aborts (o : Nat → FetchResult) (u : String) :
    ∀ (i n start : Nat) (db : DBState), i < n → o (start + i) = .fetchThrows →
      (∀ j, j < i → o (start + j) ≠ .fetchThrows) →
      (downloadMonths o u start n db).result = .error (.fetchFailed (start + i)) ∧
      (downloadMonths o u start n db).fetched =
        (List.range (i + 1)).map (fun k => start + k) := by
  intro i
  induction i with
  | zero =>
    intro n start db hn h0 _
    obtain ⟨m, rfl⟩ : ∃ m, n = m + 1 := ⟨n - 1, by omega⟩
    have h0' : o start = .fetchThrows := by simpa using h0
    constructor
    · simp [downloadMonths, h0']
    · simp only [downloadMonths, h0']
      rfl
  | succ i ih =>
    intro n start db hn hthrow hprev
    obtain ⟨m, rfl⟩ : ∃ m, n = m + 1 := ⟨n - 1, by omega⟩
    have h0 : o start ≠ .fetchThrows := by
      have := hprev 0 (Nat.succ_pos i)
      simpa using this
    have hthrow' : o (start + 1 + i) = .fetchThrows := by
      rw [show start + 1 + i = start + (i + 1) from by omega]
      exact hthrow
    have hprev' : ∀ j, j < i → o (start + 1 + j) ≠ .fetchThrows := by
      intro j hj
      have h2 := hprev (j + 1) (by omega)
      rw [show start + (j + 1) = start + 1 + j from by omega] at h2
      exact h2
    have hi : i < m := by omega
    cases ho : o start with
    | fetchThrows => exact absurd ho h0
    | notOk =>
      obtain ⟨h1, h2⟩ := ih m (start + 1) db hi hthrow' hprev'
      constructor
      · rw [show start + (i + 1) = start + 1 + i from by omega]
        simp [downloadMonths, ho, h1]
      · simp only [downloadMonths, ho]
        rw [range_map_shift, ← h2]
    | okEntries entries =>
      obtain ⟨h1, h2⟩ := ih m (start + 1)
        (entries.foldl (fun d e => storeServerEntry d u e) db) hi hthrow' hprev'
      constructor
      · rw [show start + (i + 1) = start + 1 + i from by omega]
        simp [downloadMonths, ho, h1]
      · simp only [downloadMonths, ho]
        rw [range_map_shift, ← h2]

theorem downloadServerData_online (db : DBState) (u : String) (now : Int)
    (o : Nat → FetchResult) :
    downloadServerData true db u now o =
      match (downloadMonths o u 0 3 db).result with
      | .ok _ => ⟨.ok (), updateLastSyncTime (downloadMonths o u 0 3 db).db u now,
          (downloadMonths o u 0 3 db).fetched⟩
      | .error e => ⟨.error e, (downloadMonths o u 0 3 db).db,
          (downloadMonths o u 0 3 db).fetched⟩ := rfl

/-- C6: a fetch that throws during `downloadServerData` aborts the whole
download at that month — no later month is fetched — and the error is
surfaced to the caller, while the partial progress already written to the
store is kept (local entries are only ever extended) and the user's
last-sync timestamp is untouched; when no fetch throws, all three months
are fetched and the cached user's last-sync timestamp is updated.  (A month
whose response is merely non-OK is skipped, which is not an error in the
source.) -/
theorem download_aborts_on_error (db : DBState) (u : String) (now : Int)
    (o : Nat → FetchResult) :
    (downloadServerData false db u now o = ⟨.error .offline, db, []⟩) ∧
    (∀ i, i < 3 → o i = .fetchThrows → (∀ j, j < i → o j ≠ .fetchThrows) →
      (downloadServerData true db u now o).result =
        .error (.fetchFailed i) ∧
      (downloadServerData true db u now o).fetched = List.range (i + 1) ∧
      (downloadServerData true db u now o).db.users = db.users ∧
      ∃ suf, (downloadServerData true db u now o).db.timeEntries =
        db.timeEntries ++ suf) ∧
    ((∀ i, i < 3 → o i ≠ .fetchThrows) →
      (downloadServerData true db u now o).result = .ok () ∧
      (downloadServerData true db u now o).fetched = [0, 1, 2] ∧
      ∀ usr, db.users.find? (fun v => v.email = u) = some usr →
        ∃ usr2, (downloadServerData true db u now o).db.users.find?
            (fun v => v.id = usr.id) = some usr2 ∧ usr2.lastSync = now) := by
  refine ⟨rfl, ?_, ?_⟩
  · intro i hi hthrow hprev
    obtain ⟨h1, h2⟩ := downloadMonths_throw_aborts o u i 3 0 db hi
      (by simpa using hthrow) (fun j hj => by simpa using hprev j hj)
    simp only [Nat.zero_add] at h1
    refine ⟨?_, ?_, ?_, ?_⟩
    · simp [downloadServerData_online, h1]
    · simp only [downloadServerData_online, h1]
      rw [h2]
      simp
    · simp [downloadServerData_online, h1, downloadMonths_users]
    · obtain ⟨suf, hsuf⟩ := downloadMonths_extends o u 3 0 db
      exact ⟨suf, by simp [downloadServerData_online, h1, hsuf]⟩
  · intro hnothrow
    obtain ⟨h1, h2⟩ := downloadMonths_ok_of_no_throw o u 3 0 db
      (fun k hk => by simpa using hnothrow k hk)
    have h2' : (downloadMonths o u 0 3 db).fetched = [0, 1, 2] := by
      rw [h2]; rfl
    refine ⟨?_, ?_, ?_⟩
    · simp [downloadServerData_online, h1]
    · simp [downloadServerData_online, h1, h2']
    · intro usr husr
      have husers : (downloadMonths o u 0 3 db).db.users = db.users :=
        downloadMonths_users o u 3 0 db
      have hlook := updateLastSyncTime_lastSync (downloadMonths o u 0 3 db).db
        u now usr (by rw [husers]; exact husr)
      simpa [downloadServerData_online, h1] using hlook

/-- The month-fetch oracle used to witness C6: month 0 responds non-OK,
the fetch of month 1 throws. -/
def demoOracle : Nat → FetchResult :=
  fun i => if i = 1 then .fetchThrows else .notOk

/-- Witness for C6 at a concrete failing fetch (month index 1). -/
theorem download_aborts_on_error_witness :
    (downloadServerData true conflictedDb "u" 10 demoOracle).result =
      .error (.fetchFailed 1) ∧
    (downloadServerData true conflictedDb "u" 10 demoOracle).fetched =
      List.range 2 ∧
    (downloadServerData true conflictedDb "u" 10 demoOracle).db.users =
      conflictedDb.users ∧
    ∃ suf, (downloadServerData true conflictedDb "u" 10 demoOracle).db.timeEntries =
      conflictedDb.timeEntries ++ suf :=
  (download_aborts_on_error conflictedDb "u" 10 demoOracle).2.1 1
    (by decide) (by decide) (by decide)

/-! ### Drain-pass helper lemmas (for the retry/exhaustion claims)

Throughout, `·.filter (fun q => q.id = some X)` tracks the queue entries
with primary key `X` through a drain pass. -/

theorem filter_id_singleton :
    ∀ (l : List SyncQueueItem) (a : SyncQueueItem),
      (l.map fun q => q.id).Nodup → a ∈ l →
      l.filter (fun q => q.id = a.id) = [a] := by
  intro l
  induction l with
  | nil => intro a _ ha; simp at ha
  | cons b l ih =>
    intro a hnd ha
    rw [List.map_cons, List.nodup_cons] at hnd
    rcases List.mem_cons.mp ha with rfl | ha2
    · rw [List.filter_cons_of_pos (by simp)]
      have : l.filter (fun q => q.id = a.id) = [] := by
        rw [List.filter_eq_nil_iff]
        intro q hq
        simp only [decide_eq_true_eq]
        intro hqa
        exact hnd.1 (hqa ▸ List.mem_map_of_mem (fun q => q.id) hq)
      rw [this]
    · have hba : ¬ b.id = a.id := by
        intro hba
        exact hnd.1 (hba ▸ List.mem_map_of_mem (fun q => q.id) ha2)
      rw [List.filter_cons_of_neg (by simpa using hba)]
      exact ih a hnd.2 ha2

theorem filterX_after_delete (l : List SyncQueueItem) (X : Nat) :
    (l.filter fun q => ¬ q.id = some X).filter (fun q => q.id = some X) = [] := by
  rw [List.filter_eq_nil_iff]
  intro q hq
  have := (List.mem_filter.mp hq).2
  simpa using this

theorem filterX_delete_other (l : List SyncQueueItem) (j X : Nat) (h : j ≠ X) :
    (l.filter fun q => ¬ q.id = some j).filter (fun q => q.id = some X) =
      l.filter (fun q => q.id = some X) := by
  induction l with
  | nil => rfl
  | cons b l ih =>
    by_cases hbX : b.id = some X
    · have hbj : ¬ b.id = some j := by
        rw [hbX]
        simp [Option.some_inj]
        omega
      rw [List.filter_cons_of_pos (by simpa using hbj),
        List.filter_cons_of_pos (by simpa using hbX),
        List.filter_cons_of_pos (by simpa using hbX), ih]
    · by_cases hbj : b.id = some j
      · rw [List.filter_cons_of_neg (by simpa using hbj),
          List.filter_cons_of_neg (by simpa using hbX), ih]
      · rw [List.filter_cons_of_pos (by simpa using hbj),
          List.filter_cons_of_neg (by simpa using hbX),
          List.filter_cons_of_neg (by simpa using hbX), ih]

theorem filterX_bump_other (l : List SyncQueueItem) (j X : Nat) (h : j ≠ X)
    (r : Nat) :
    ((l.map fun q =>
        if q.id = some j then { q with retryCount := r } else q).filter
      (fun q => q.id = some X)) = l.filter (fun q => q.id = some X) := by
  induction l with
  | nil => rfl
  | cons b l ih =>
    rw [List.map_cons]
    by_cases hbj : b.id = some j
    · have hbX : ¬ b.id = some X := by
        rw [hbj]
        simp [Option.some_inj]
        omega
      rw [if_pos hbj,
        List.filter_cons_of_neg (by simpa using hbX),
        List.filter_cons_of_neg (by simpa using hbX), ih]
    · rw [if_neg hbj]
      by_cases hbX : b.id = some X
      · rw [List.filter_cons_of_pos (by simpa using hbX),
          List.filter_cons_of_pos (by simpa using hbX), ih]
      · rw [List.filter_cons_of_neg (by simpa using hbX),
          List.filter_cons_of_neg (by simpa using hbX), ih]

theorem filterX_bump_self (l : List SyncQueueItem) (X : Nat) (r : Nat) :
    ((l.map fun q =>
        if q.id = some X then { q with retryCount := r } else q).filter
      (fun q => q.id = some X)) =
      (l.filter (fun q => q.id = some X)).map
        (fun q => { q with retryCount := r }) := by
  induction l with
  | nil => rfl
  | cons b l ih =>
    rw [List.map_cons]
    by_cases hbX : b.id = some X
    · rw [if_pos hbX,
        List.filter_cons_of_pos (by simpa using hbX),
        List.filter_cons_of_pos (by simpa using hbX),
        List.map_cons, ih]
    · rw [if_neg hbX,
        List.filter_cons_of_neg (by simpa using hbX),
        List.filter_cons_of_neg (by simpa using hbX), ih]

theorem find?_of_filter_singleton :
    ∀ (l : List SyncQueueItem) (p : SyncQueueItem → Bool) (a : SyncQueueItem),
      l.filter p = [a] → l.find? p = some a := by
  intro l
  induction l with
  | nil => intro p a h; simp at h
  | cons b l ih =>
    intro p a h
    by_cases hb : p b
    · rw [List.filter_cons_of_pos hb] at h
      injection h with h1 h2
      rw [List.find?_cons_of_pos l hb, h1]
    · rw [List.filter_cons_of_neg (by simpa using hb)] at h
      rw [List.find?_cons_of_neg l (by simpa using hb)]
      exact ih p a h

theorem processItem_timeEntries (o : RemoteOracle) (db : DBState)
    (it : SyncQueueItem) : ((processItem o db it).1).timeEntries = db.timeEntries := by
  have h1 : ∀ oid, (markSyncItemCompletedOpt db oid).timeEntries = db.timeEntries := by
    intro oid; cases oid <;> rfl
  have h2 : ∀ oid, (incrementSyncRetryOpt db oid).timeEntries = db.timeEntries := by
    intro oid
    cases oid with
    | none => rfl
    | some j =>
      simp only [incrementSyncRetryOpt, incrementSyncRetry]
      split <;> rfl
  unfold processItem
  split_ifs <;> simp [h1, h2]

theorem drainLoop_timeEntries (o : RemoteOracle) :
    ∀ (items : List SyncQueueItem) (db : DBState),
      ((drainLoop o items db).1).timeEntries = db.timeEntries := by
  intro items
  induction items with
  | nil => intro db; rfl
  | cons it rest ih =>
    intro db
    show ((drainLoop o rest (processItem o db it).1).1).timeEntries = _
    rw [ih, processItem_timeEntries]

theorem processItem_keeps_other (o : RemoteOracle) (db : DBState)
    (it : SyncQueueItem) (X : Nat) (hne : it.id ≠ some X) :
    ((processItem o db it).1).syncQueue.filter (fun q => q.id = some X) =
      db.syncQueue.filter (fun q => q.id = some X) := by
  have hmark : (markSyncItemCompletedOpt db it.id).syncQueue.filter
      (fun q => q.id = some X) = db.syncQueue.filter (fun q => q.id = some X) := by
    cases hcase : it.id with
    | none => rfl
    | some j =>
      have hjX : j ≠ X := by
        rintro rfl
        exact hne hcase
      exact filterX_delete_other db.syncQueue j X hjX
  have hinc : (incrementSyncRetryOpt db it.id).syncQueue.filter
      (fun q => q.id = some X) = db.syncQueue.filter (fun q => q.id = some X) := by
    cases hcase : it.id with
    | none => rfl
    | some j =>
      have hjX : j ≠ X := by
        rintro rfl
        exact hne hcase
      simp only [incrementSyncRetryOpt, incrementSyncRetry]
      split
      · exact filterX_bump_other db.syncQueue j X hjX _
      · rfl
  unfold processItem
  split_ifs <;> first | exact hmark | exact hinc

theorem drainLoop_keeps_other (o : RemoteOracle) (X : Nat) :
    ∀ (items : List SyncQueueItem) (db : DBState), (∀ a ∈ items, a.id ≠ some X) →
      ((drainLoop o items db).1).syncQueue.filter (fun q => q.id = some X) =
        db.syncQueue.filter (fun q => q.id = some X) := by
  intro items
  induction items with
  | nil => intro db _; rfl
  | cons it rest ih =>
    intro db h
    show ((drainLoop o rest (processItem o db it).1).1).syncQueue.filter _ = _
    rw [ih _ (fun a ha => h a (List.mem_cons_of_mem it ha)),
      processItem_keeps_other o db it X (h it (List.mem_cons_self it rest))]

theorem processItem_exhausted_self (o : RemoteOracle) (db : DBState)
    (it : SyncQueueItem) (X : Nat) (hid : it.id = some X)
    (hmax : maxRetries ≤ it.retryCount) :
    ((processItem o db it).1).syncQueue.filter (fun q => q.id = some X) = [] := by
  unfold processItem
  rw [if_pos hmax]
  show (markSyncItemCompletedOpt db it.id).syncQueue.filter _ = []
  rw [hid]
  exact filterX_after_delete db.syncQueue X

theorem processItem_fail_self (o : RemoteOracle) (db : DBState)
    (it : SyncQueueItem) (X : Nat) (hid : it.id = some X)
    (hretry : it.retryCount < maxRetries) (hfail : o.syncResult it = false)
    (hdb : db.syncQueue.filter (fun q => q.id = some X) = [it]) :
    ((processItem o db it).1).syncQueue.filter (fun q => q.id = some X) =
      [{ it with retryCount := it.retryCount + 1 }] := by
  have hfind : db.syncQueue.find? (fun q => q.id = some X) = some it :=
    find?_of_filter_singleton db.syncQueue _ it hdb
  unfold processItem
  rw [if_neg (by omega), if_neg (by simp [hfail])]
  show (incrementSyncRetryOpt db it.id).syncQueue.filter _ = _
  rw [hid]
  simp only [incrementSyncRetryOpt, incrementSyncRetry, hfind]
  rw [filterX_bump_self, hdb, List.map_cons, List.map_nil, hid]

theorem processItem_trace (o : RemoteOracle) (db : DBState) (it : SyncQueueItem) :
    (processItem o db it).2 =
      if maxRetries ≤ it.retryCount then []
      else if o.syncResult it then [SyncEvent.attempt it]
      else [SyncEvent.attempt it,
        SyncEvent.delayMs (retryDelay * (it.retryCount + 1))] := by
  unfold processItem
  split_ifs <;> rfl

theorem countAttempts_processItem (o : RemoteOracle) (db : DBState)
    (it : SyncQueueItem) (X : Nat) :
    countAttempts X (processItem o db it).2 =
      if it.id = some X ∧ it.retryCount < maxRetries then 1 else 0 := by
  by_cases hmax : maxRetries ≤ it.retryCount
  · rw [processItem_trace, if_pos hmax, if_neg (fun h => absurd h.2 (by omega))]
    rfl
  · by_cases hX : it.id = some X
    · rw [if_pos ⟨hX, by omega⟩]
      by_cases hs : o.syncResult it
      · rw [processItem_trace, if_neg hmax, if_pos hs]
        simp [countAttempts, List.countP_cons, hX]
      · rw [processItem_trace, if_neg hmax, if_neg hs]
        simp [countAttempts, List.countP_cons, hX]
    · rw [if_neg (fun h => hX h.1)]
      by_cases hs : o.syncResult it
      · rw [processItem_trace, if_neg hmax, if_pos hs]
        simp [countAttempts, List.countP_cons, hX]
      · rw [processItem_trace, if_neg hmax, if_neg hs]
        simp [countAttempts, List.countP_cons, hX]

theorem countAttempts_append (X : Nat) (tr1 tr2 : List SyncEvent) :
    countAttempts X (tr1 ++ tr2) = countAttempts X tr1 + countAttempts X tr2 := by
  simp [countAttempts, List.countP_append]

theorem countAttempts_cons_setFlag (X : Nat) (b : Bool) (tr : List SyncEvent) :
    countAttempts X (SyncEvent.setFlag b :: tr) = countAttempts X tr := by
  simp [countAttempts, List.countP_cons]

theorem countAttempts_drainLoop (o : RemoteOracle) (X : Nat) :
    ∀ (items : List SyncQueueItem) (db : DBState),
      countAttempts X (drainLoop o items db).2 =
        (items.map fun it =>
          if it.id = some X ∧ it.retryCount < maxRetries then 1 else 0).sum := by
  intro items
  induction items with
  | nil => intro db; rfl
  | cons it rest ih =>
    intro db
    show countAttempts X
      ((processItem o db it).2 ++ (drainLoop o rest (processItem o db it).1).2) = _
    rw [countAttempts_append, countAttempts_processItem, ih, List.map_cons,
      List.sum_cons]

theorem delay_mem_drainLoop (o : RemoteOracle) (it : SyncQueueItem)
    (hretry : it.retryCount < maxRetries) (hfail : o.syncResult it = false) :
    ∀ (l1 l2 : List SyncQueueItem) (db : DBState),
      SyncEvent.delayMs (retryDelay * (it.retryCount + 1)) ∈
        (drainLoop o (l1 ++ it :: l2) db).2 := by
  intro l1
  induction l1 with
  | nil =>
    intro l2 db
    show _ ∈ (processItem o db it).2 ++ _
    apply List.mem_append_left
    rw [processItem_trace, if_neg (by omega), if_neg (by simp [hfail])]
    simp
  | cons a l1 ih =>
    intro l2 db
    show _ ∈ (processItem o db a).2 ++ _
    exact List.mem_append_right _ (ih l2 _)

theorem drainLoop_split_fail (o : RemoteOracle) (X : Nat) (it : SyncQueueItem)
    (hid : it.id = some X) (hretry : it.retryCount < maxRetries)
    (hfail : o.syncResult it = false) :
    ∀ (l1 l2 : List SyncQueueItem) (db : DBState),
      (∀ a ∈ l1, a.id ≠ some X) → (∀ a ∈ l2, a.id ≠ some X) →
      db.syncQueue.filter (fun q => q.id = some X) = [it] →
      ((drainLoop o (l1 ++ it :: l2) db).1).syncQueue.filter
        (fun q => q.id = some X) = [{ it with retryCount := it.retryCount + 1 }] := by
  intro l1
  induction l1 with
  | nil =>
    intro l2 db _ hl2 hdb
    show ((drainLoop o l2 (processItem o db it).1).1).syncQueue.filter _ = _
    rw [drainLoop_keeps_other o X l2 _ hl2,
      processItem_fail_self o db it X hid hretry hfail hdb]
  | cons a l1 ih =>
    intro l2 db hl1 hl2 hdb
    show ((drainLoop o (l1 ++ it :: l2) (processItem o db a).1).1).syncQueue.filter _ = _
    apply ih l2 _ (fun x hx => hl1 x (List.mem_cons_of_mem a hx)) hl2
    rw [processItem_keeps_other o db a X (hl1 a (List.mem_cons_self a l1))]
    exact hdb

theorem drainLoop_split_exhausted (o : RemoteOracle) (X : Nat)
    (it : SyncQueueItem) (hid : it.id = some X)
    (hmax : maxRetries ≤ it.retryCount) :
    ∀ (l1 l2 : List SyncQueueItem) (db : DBState), (∀ a ∈ l2, a.id ≠ some X) →
      ((drainLoop o (l1 ++ it :: l2) db).1).syncQueue.filter
        (fun q => q.id = some X) = [] := by
  intro l1
  induction l1 with
  | nil =>
    intro l2 db hl2
    show ((drainLoop o l2 (processItem o db it).1).1).syncQueue.filter _ = _
    rw [drainLoop_keeps_other o X l2 _ hl2,
      processItem_exhausted_self o db it X hid hmax]
  | cons a l1 ih =>
    intro l2 db hl2
    show ((drainLoop o (l1 ++ it :: l2) (processItem o db a).1).1).syncQueue.filter _ = _
    exact ih l2 _ hl2

theorem nodup_split_ne (l1 l2 : List SyncQueueItem) (it : SyncQueueItem)
    (hnd : ((l1 ++ it :: l2).map fun q => q.id).Nodup) :
    (∀ a ∈ l1, a.id ≠ it.id) ∧ (∀ a ∈ l2, a.id ≠ it.id) := by
  rw [List.map_append, List.map_cons, List.nodup_append] at hnd
  obtain ⟨h1, h2, h3⟩ := hnd
  rw [List.nodup_cons] at h2
  constructor
  · intro a ha heq
    exact h3 (List.mem_map_of_mem _ ha) (heq ▸ List.mem_cons_self _ _)
  · intro a ha heq
    exact h2.1 (heq ▸ List.mem_map_of_mem (fun q => q.id) ha)

theorem syncPendingData_nonbusy (o : RemoteOracle) (db : DBState)
    (hread : o.readQueueFails = false) :
    syncPendingData o false db =
      { result := true, syncInProgress := false,
        db := (drainLoop o (getPendingSyncItems db) db).1,
        trace := SyncEvent.setFlag true ::
          (drainLoop o (getPendingSyncItems db) db).2 ++
            [SyncEvent.setFlag false] } := by
  simp [syncPendingData, hread]

/-! ### C2 -/

/-- C2: during a drain pass, a queue entry whose `retryCount` has reached
`maxRetries` (= 3) is removed from the sync queue without `syncItem` being
invoked for it (no remote-gateway call: zero `attempt` events with its id),
and the pass leaves every local time-entry record unchanged. -/
theorem drain_drops_exhausted_without_call (o : RemoteOracle) (db : DBState)
    (it : SyncQueueItem) (X : Nat)
    (hread : o.readQueueFails = false)
    (hwf : (db.syncQueue.map fun q => q.id).Nodup)
    (hmem : it ∈ db.syncQueue)
    (hid : it.id = some X)
    (hmax : maxRetries ≤ it.retryCount) :
    (∀ q ∈ (syncPendingData o false db).db.syncQueue, q.id ≠ some X) ∧
    countAttempts X (syncPendingData o false db).trace = 0 ∧
    (syncPendingData o false db).db.timeEntries = db.timeEntries := by
  have hperm : List.Perm (getPendingSyncItems db) db.syncQueue :=
    List.perm_insertionSort _ _
  have hit : it ∈ getPendingSyncItems db := hperm.mem_iff.mpr hmem
  have hnd : ((getPendingSyncItems db).map fun q => q.id).Nodup :=
    ((hperm.map _).nodup_iff).mpr hwf
  obtain ⟨l1, l2, heq⟩ := List.append_of_mem hit
  have hsplit := nodup_split_ne l1 l2 it (by rw [← heq]; exact hnd)
  rw [hid] at hsplit
  rw [syncPendingData_nonbusy o db hread]
  refine ⟨?_, ?_, ?_⟩
  · intro q hq
    have hfilter : ((drainLoop o (getPendingSyncItems db) db).1).syncQueue.filter
        (fun q => q.id = some X) = [] := by
      rw [heq]
      exact drainLoop_split_exhausted o X it hid hmax l1 l2 db hsplit.2
    rw [List.filter_eq_nil_iff] at hfilter
    have := hfilter q hq
    simpa using this
  · show countAttempts X (SyncEvent.setFlag true ::
      (drainLoop o (getPendingSyncItems db) db).2 ++ [SyncEvent.setFlag false]) = 0
    rw [countAttempts_append, countAttempts_cons_setFlag,
      countAttempts_drainLoop, heq]
    have hz : ((l1 ++ it :: l2).map fun a =>
        if a.id = some X ∧ a.retryCount < maxRetries then 1 else 0).sum = 0 := by
      apply List.sum_eq_zero
      intro x hx
      rw [List.mem_map] at hx
      obtain ⟨a, ha, rfl⟩ := hx
      rcases List.mem_append.mp ha with h | h
      · rw [if_neg (fun hc => hsplit.1 a h hc.1)]
      · rcases List.mem_cons.mp h with rfl | h
        · rw [if_neg (fun hc => absurd hc.2 (by omega))]
        · rw [if_neg (fun hc => hsplit.2 a h hc.1)]
    rw [hz]
    rfl
  · exact drainLoop_timeEntries o _ db

/-- The exhausted queue entry used to witness C2 (`retryCount = 3`). -/
def exhaustedItem : SyncQueueItem :=
  { id := some 7, action := SyncAction.create, table := SyncTable.timeEntry,
    recordId := "1", data := SyncPayload.idOnly 1, timestamp := 0,
    retryCount := 3 }

/-- The store used to witness C2: one exhausted queue entry. -/
def exhaustedDb : DBState :=
  { timeEntries := [conflictedEntry], users := [], syncQueue := [exhaustedItem],
    nextEntryId := 2, nextQueueId := 8 }

/-- The all-success oracle used to witness C2 and C4's surroundings. -/
def okOracle : RemoteOracle := { syncResult := fun _ => true, readQueueFails := false }

/-- Witness for C2 at a concrete exhausted entry. -/
theorem drain_drops_exhausted_without_call_witness :
    (∀ q ∈ (syncPendingData okOracle false exhaustedDb).db.syncQueue,
      q.id ≠ some 7) ∧
    countAttempts 7 (syncPendingData okOracle false exhaustedDb).trace = 0 ∧
    (syncPendingData okOracle false exhaustedDb).db.timeEntries =
      exhaustedDb.timeEntries :=
  drain_drops_exhausted_without_call okOracle exhaustedDb exhaustedItem 7
    rfl (by decide) (by decide) rfl (by decide)

/-! ### C4 -/

/-- C4: a queue entry whose replay attempt fails during a drain pass stays
in the queue with its stored `retryCount` increased by exactly 1 (the
queue's entries with its id after the pass are exactly the bumped entry),
the drain suspends for `retryDelay * (retryCount + 1)` milliseconds —
linear backoff in the entry's pre-failure counter — and the entry is
attempted exactly once in the pass (never retried within it). -/
theorem drain_failure_linear_backoff (o : RemoteOracle) (db : DBState)
    (it : SyncQueueItem) (X : Nat)
    (hread : o.readQueueFails = false)
    (hwf : (db.syncQueue.map fun q => q.id).Nodup)
    (hmem : it ∈ db.syncQueue)
    (hid : it.id = some X)
    (hretry : it.retryCount < maxRetries)
    (hfail : o.syncResult it = false) :
    (syncPendingData o false db).db.syncQueue.filter (fun q => q.id = some X) =
      [{ it with retryCount := it.retryCount + 1 }] ∧
    SyncEvent.delayMs (retryDelay * (it.retryCount + 1)) ∈
      (syncPendingData o false db).trace ∧
    countAttempts X (syncPendingData o false db).trace = 1 := by
  have hperm : List.Perm (getPendingSyncItems db) db.syncQueue :=
    List.perm_insertionSort _ _
  have hit : it ∈ getPendingSyncItems db := hperm.mem_iff.mpr hmem
  have hnd : ((getPendingSyncItems db).map fun q => q.id).Nodup :=
    ((hperm.map _).nodup_iff).mpr hwf
  obtain ⟨l1, l2, heq⟩ := List.append_of_mem hit
  have hsplit := nodup_split_ne l1 l2 it (by rw [← heq]; exact hnd)
  rw [hid] at hsplit
  have h0 : db.syncQueue.filter (fun q => q.id = some X) = [it] := by
    have h0' := filter_id_singleton db.syncQueue it hwf hmem
    rw [hid] at h0'
    exact h0'
  rw [syncPendingData_nonbusy o db hread]
  refine ⟨?_, ?_, ?_⟩
  · show ((drainLoop o (getPendingSyncItems db) db).1).syncQueue.filter _ = _
    rw [heq]
    exact drainLoop_split_fail o X it hid hretry hfail l1 l2 db
      hsplit.1 hsplit.2 h0
  · show _ ∈ (SyncEvent.setFlag true ::
      (drainLoop o (getPendingSyncItems db) db).2) ++ [SyncEvent.setFlag false]
    apply List.mem_append_left
    apply List.mem_cons_of_mem
    rw [heq]
    exact delay_mem_drainLoop o it hretry hfail l1 l2 db
  · show countAttempts X (SyncEvent.setFlag true ::
      (drainLoop o (getPendingSyncItems db) db).2 ++ [SyncEvent.setFlag false]) = 1
    rw [countAttempts_append, countAttempts_cons_setFlag,
      countAttempts_drainLoop, heq, List.map_append, List.sum_append,
      List.map_cons, List.sum_cons]
    have hz1 : (l1.map fun a =>
        if a.id = some X ∧ a.retryCount < maxRetries then 1 else 0).sum = 0 := by
      apply List.sum_eq_zero
      intro x hx
      rw [List.mem_map] at hx
      obtain ⟨a, ha, rfl⟩ := hx
      rw [if_neg (fun hc => hsplit.1 a ha hc.1)]
    have hz2 : (l2.map fun a =>
        if a.id = some X ∧ a.retryCount < maxRetries then 1 else 0).sum = 0 := by
      apply List.sum_eq_zero
      intro x hx
      rw [List.mem_map] at hx
      obtain ⟨a, ha, rfl⟩ := hx
      rw [if_neg (fun hc => hsplit.2 a ha hc.1)]
    rw [hz1, hz2, if_pos ⟨hid, hretry⟩]
    rfl

/-- The failing queue entry used to witness C4 (`retryCount = 1`). -/
def failingItem : SyncQueueItem :=
  { id := some 4, action := SyncAction.update, table := SyncTable.timeEntry,
    recordId := "1", data := SyncPayload.idOnly 1, timestamp := 0,
    retryCount := 1 }

/-- The store used to witness C4: one failing queue entry. -/
def failingDb : DBState :=
  { timeEntries := [], users := [], syncQueue := [failingItem],
    nextEntryId := 1, nextQueueId := 5 }

/-- The all-failure oracle used to witness C4. -/
def failOracle : RemoteOracle :=
  { syncResult := fun _ => false, readQueueFails := false }

/-- Witness for C4 at a concrete failing entry: its counter goes 1 → 2 and
the backoff is 2000 ms. -/
theorem drain_failure_linear_backoff_witness :
    (syncPendingData failOracle false failingDb).db.syncQueue.filter
      (fun q => q.id = some 4) = [{ failingItem with retryCount := 2 }] ∧
    SyncEvent.delayMs 2000 ∈ (syncPendingData failOracle false failingDb).trace ∧
    countAttempts 4 (syncPendingData failOracle false failingDb).trace = 1 :=
  drain_failure_linear_backoff failOracle failingDb failingItem 4
    rfl (by decide) (by decide) rfl (by decide) rfl

end FieldServiceReport
